import Mathlib

/-!
Shallow embedding of the undo/redo transaction log (`src/undo_stack.py`) and
the async-generation error boundary (`src/controller/image_generation/image_generator.py`)
of the IntraPaint repository.

Document state is an abstract type `α`; a Python callable mutating the
document becomes a function `α → α`.  Timestamps (`datetime.now().timestamp()`,
a float in the source) are modelled as rationals and passed explicitly to the
operations that read the clock.  Qt signal emissions are modelled as an output
list of `SignalEvent`s.  Python exceptions become `Except String` results: an
operation that raises returns the error together with the unchanged object
state, mirroring the imperative semantics where the raise leaves the object
untouched.
-/

namespace IntraPaint

/-- Constant `MAX_UNDO = 50` (src/undo_stack.py line 14), module-level. -/
def MAX_UNDO : Nat := 50

/-- One committed transaction: class `_UndoAction`.  `undo` reverses the
action, `redo` is the forward action, `type` is the merge tag, `timestamp`
the commit time. -/
structure UAction (α : Type) where
  undo : α → α
  redo : α → α
  type : String
  timestamp : ℚ

/-- A merged group of transactions: class `_UndoGroup`.  Undo callables are
kept newest-first (inserted at index 0), redo callables oldest-first
(appended). -/
structure UGroup (α : Type) where
  type : String
  timestamp : ℚ
  undo_actions : List (α → α)
  redo_actions : List (α → α)

/-- Constructor `_UndoGroup(action_type)`: fresh empty group stamped with the current
time. -/
def UGroup.new (action_type : String) (now : ℚ) : UGroup α :=
  { type := action_type, timestamp := now, undo_actions := [], redo_actions := [] }

/-- Python's substring test `needle in hay`, over character lists. -/
def isSubstring (needle : List Char) : List Char → Bool
  | [] => decide (needle = [])
  | b :: bs => needle.isPrefixOf (b :: bs) || isSubstring needle bs

/-- Method `_UndoGroup.add_to_group`: insert the undo callable at the front, append
the redo callable, refresh the timestamp, and extend the type tag when the
new action type is not already a substring of it. -/
def UGroup.add_to_group (g : UGroup α) (undo_action redo_action : α → α)
    (action_type : String) (now : ℚ) : UGroup α :=
  { g with
    undo_actions := undo_action :: g.undo_actions
    redo_actions := g.redo_actions ++ [redo_action]
    timestamp := now
    type := if isSubstring action_type.data g.type.data then g.type
            else g.type ++ "," ++ action_type }

/-- Method `_UndoGroup.undo`: run every stored undo callable in list order
(newest commit first, i.e. reverse commit order). -/
def UGroup.undoApply (g : UGroup α) (d : α) : α :=
  g.undo_actions.foldl (fun d f => f d) d

/-- Method `_UndoGroup.redo`: run every stored redo callable in list order
(commit order). -/
def UGroup.redoApply (g : UGroup α) (d : α) : α :=
  g.redo_actions.foldl (fun d f => f d) d

/-- Method `_UndoGroup.count`: number of grouped actions. -/
def UGroup.count (g : UGroup α) : Nat :=
  g.undo_actions.length

/-- A stack entry is either a single `_UndoAction` or an `_UndoGroup`. -/
inductive Entry (α : Type) where
  | single (a : UAction α)
  | group (g : UGroup α)

/-- The timestamp of a stack entry. -/
def Entry.timestamp : Entry α → ℚ
  | .single a => a.timestamp
  | .group g => g.timestamp

/-- The type tag of a stack entry. -/
def Entry.etype : Entry α → String
  | .single a => a.type
  | .group g => g.type

/-- Executing an entry's `undo()`. -/
def Entry.undoApply : Entry α → α → α
  | .single a, d => a.undo d
  | .group g, d => g.undoApply d

/-- Executing an entry's `redo()`. -/
def Entry.redoApply : Entry α → α → α
  | .single a, d => a.redo d
  | .group g, d => g.redoApply d

/-- A Qt signal emission observable by subscribers: `undo_count_changed(n)`
or `redo_count_changed(n)`. -/
inductive SignalEvent where
  | undoCountChanged (n : Nat)
  | redoCountChanged (n : Nat)
deriving DecidableEq, Repr

/-- Observable state of the `UndoStack` singleton. -/
@[ext]
structure UndoStackState (α : Type) where
  undo_stack : List (Entry α)
  redo_stack : List (Entry α)
  lock_held : Bool
  open_group : Option (UGroup α)
  in_progress_change : String
  undo_in_progress : Bool

/-- Initial state per `UndoStack.__init__`: empty stacks, lock free, no open group. -/
def initialState (α : Type) : UndoStackState α :=
  { undo_stack := [], redo_stack := [], lock_held := false, open_group := none,
    in_progress_change := "none", undo_in_progress := false }

/-- Method `UndoStack.undo_count`. -/
def undo_count (s : UndoStackState α) : Nat := s.undo_stack.length

/-- Method `UndoStack.redo_count`. -/
def redo_count (s : UndoStackState α) : Nat := s.redo_stack.length

/-- The `while len(stack) > n: stack.pop(0)` loop of `_add_to_stack`:
drop elements from the front until at most `n` remain. -/
def truncFront (n : Nat) : List β → List β
  | [] => []
  | x :: xs => if (x :: xs).length > n then truncFront n xs else x :: xs

/-- Method `UndoStack._add_to_stack`: append the item; if the bound `MAX_UNDO` is
exceeded, emit the count signal only when the length is not exactly
`MAX_UNDO + 1`, then pop from the front down to the bound; otherwise emit
the new length. -/
def add_to_stack (item : Entry α) (stack : List (Entry α))
    (mkSignal : Nat → SignalEvent) : List (Entry α) × List SignalEvent :=
  let stack' := stack ++ [item]
  if stack'.length > MAX_UNDO then
    (truncFront MAX_UNDO stack',
     if stack'.length ≠ MAX_UNDO + 1 then [mkSignal MAX_UNDO] else [])
  else
    (stack', [mkSignal stack'.length])

/-- The configuration values the undo subsystem could read from the provider.
`undo_merge_interval` embeds `AppConfig().get(AppConfig.UNDO_MERGE_INTERVAL)`
(read inside `commit_action`).  `max_history_size` is modelled from the spec:
§6 claims the core reads a max-history-size from the configuration provider,
but `src/undo_stack.py` defines no such key and reads no such value — the
field exists here only so that statements about it can be made. -/
structure AppConfigModel where
  undo_merge_interval : ℚ
  max_history_size : Nat

/-- Method `UndoStack.commit_action`: fail fast when the non-reentrant lock is
already held; otherwise run the action (unless `skip_initial_call`), then
either append to the open group, merge with the previous stack top when the
timestamps fall within the configured merge interval, or push a fresh
`_UndoAction`; finally clear the redo stack.  Returns the raised error or
`true`, the resulting state, the resulting document, and the emitted
signals in order. -/
def commit_action (cfg : AppConfigModel) (now : ℚ) (action undo_action : α → α)
    (action_type : String) (skip_initial_call : Bool)
    (s : UndoStackState α) (doc : α) :
    Except String Bool × UndoStackState α × α × List SignalEvent :=
  if s.lock_held then
    (.error ("Concurrent undo history changes detected! Attempted: " ++ action_type ++
             ", in-progress: " ++ s.in_progress_change), s, doc, [])
  else
    let doc' := if skip_initial_call then doc else action doc
    let finish : List (Entry α) → Option (UGroup α) → List SignalEvent →
        Except String Bool × UndoStackState α × α × List SignalEvent :=
      fun undoStack og sigs =>
        let redoPair :=
          if s.redo_stack.length > 0 then
            (([] : List (Entry α)), [SignalEvent.redoCountChanged 0])
          else (s.redo_stack, [])
        (.ok true,
         { s with undo_stack := undoStack, redo_stack := redoPair.1,
                  open_group := og, in_progress_change := "none" },
         doc', sigs ++ redoPair.2)
    match s.open_group with
    | some g =>
        finish s.undo_stack (some (g.add_to_group undo_action action action_type now)) []
    | none =>
        let undo_entry : UAction α :=
          { undo := undo_action, redo := action, type := action_type, timestamp := now }
        match s.undo_stack.getLast? with
        | some prev =>
            if undo_entry.timestamp - prev.timestamp < cfg.undo_merge_interval then
              match prev with
              | .group pg =>
                  finish (s.undo_stack.dropLast ++
                          [Entry.group (pg.add_to_group undo_action action action_type now)])
                    none []
              | .single pa =>
                  let new_group :=
                    ((UGroup.new pa.type now).add_to_group pa.undo pa.redo pa.type
                        now).add_to_group undo_action action action_type now
                  let pushed :=
                    add_to_stack (Entry.group new_group) s.undo_stack.dropLast
                      SignalEvent.undoCountChanged
                  finish pushed.1 none pushed.2
            else
              let pushed :=
                add_to_stack (Entry.single undo_entry) s.undo_stack
                  SignalEvent.undoCountChanged
              finish pushed.1 none pushed.2
        | none =>
            let pushed :=
              add_to_stack (Entry.single undo_entry) s.undo_stack
                SignalEvent.undoCountChanged
            finish pushed.1 none pushed.2

/-- Method `UndoStack.undo`: set the in-progress flag, return early when the undo
stack is empty (the flag stays set on that path), otherwise pop the newest
entry, run its undo, emit the undo count, move the entry to the redo stack,
and clear the flag. -/
def undo (s : UndoStackState α) (doc : α) :
    UndoStackState α × α × List SignalEvent :=
  let s := { s with undo_in_progress := true }
  match s.undo_stack.getLast? with
  | none => (s, doc, [])
  | some last_action_object =>
      let popped := s.undo_stack.dropLast
      let doc' := last_action_object.undoApply doc
      let pushed :=
        add_to_stack last_action_object s.redo_stack SignalEvent.redoCountChanged
      ({ s with undo_stack := popped, redo_stack := pushed.1,
                undo_in_progress := false },
       doc', SignalEvent.undoCountChanged popped.length :: pushed.2)

/-- Method `UndoStack.redo`: pop the newest redo entry, run its redo, emit the redo
count, move the entry back to the undo stack. -/
def redo (s : UndoStackState α) (doc : α) :
    UndoStackState α × α × List SignalEvent :=
  match s.redo_stack.getLast? with
  | none => (s, doc, [])
  | some last_action_object =>
      let popped := s.redo_stack.dropLast
      let doc' := last_action_object.redoApply doc
      let pushed :=
        add_to_stack last_action_object s.undo_stack SignalEvent.undoCountChanged
      ({ s with undo_stack := pushed.1, redo_stack := popped },
       doc', SignalEvent.redoCountChanged popped.length :: pushed.2)

/-- The entry section of the `UndoStack.combining_actions` context manager,
up to and including the `yield`: fail fast when the lock is held, raise when
a group is already open, otherwise open a fresh group.  If the context body
raises, nothing further of the context manager runs (there is no
`try/finally`), so the state returned here is also the state after an
exceptional exit. -/
def combining_actions_open (action_type : String) (now : ℚ)
    (s : UndoStackState α) : Except String Unit × UndoStackState α :=
  if s.lock_held then
    (.error ("Concurrent undo history changes detected! Attempted: " ++ action_type ++
             ", in-progress: " ++ s.in_progress_change), s)
  else
    match s.open_group with
    | some g =>
        (.error ("Tried to create " ++ action_type ++ " combined action group, but " ++
                 g.type ++ " group is still open"), s)
    | none => (.ok (), { s with open_group := some (UGroup.new action_type now) })

/-- The exit section of `UndoStack.combining_actions`, run after a normal
return from the body: fail fast when the lock is held, assert a matching
group is open, push the group as one stack entry only when it is non-empty,
and clear the open-group slot. -/
def combining_actions_close (action_type : String) (s : UndoStackState α) :
    Except String Unit × UndoStackState α × List SignalEvent :=
  if s.lock_held then
    (.error ("Concurrent undo history changes detected! Attempted: " ++ action_type ++
             ", in-progress: " ++ s.in_progress_change), s, [])
  else
    match s.open_group with
    | none => (.error "assertion failed", s, [])
    | some g =>
        if action_type.data.isPrefixOf g.type.data then
          if g.count > 0 then
            let pushed :=
              add_to_stack (Entry.group g) s.undo_stack SignalEvent.undoCountChanged
            (.ok (), { s with undo_stack := pushed.1, open_group := none }, pushed.2)
          else
            (.ok (), { s with open_group := none }, [])
        else (.error "assertion failed", s, [])

/-! Derived iteration helpers used to state history-level properties. -/

/-- The data of one `commit_action` call: forward callable, undo callable,
type tag, and the clock value at commit time. -/
structure Commit (α : Type) where
  doFn : α → α
  undoFn : α → α
  ctype : String
  now : ℚ

/-- The stack entry `commit_action` builds for a commit that is pushed
without merging. -/
def entryOf (c : Commit α) : Entry α :=
  Entry.single { undo := c.undoFn, redo := c.doFn, type := c.ctype, timestamp := c.now }

/-- Run one commit, keeping state and document and discarding signals. -/
def commitStep (cfg : AppConfigModel) (c : Commit α)
    (p : UndoStackState α × α) : UndoStackState α × α :=
  let r := commit_action cfg c.now c.doFn c.undoFn c.ctype false p.1 p.2
  (r.2.1, r.2.2.1)

/-- Run a sequence of commits in order. -/
def foldCommits (cfg : AppConfigModel) (cs : List (Commit α))
    (p : UndoStackState α × α) : UndoStackState α × α :=
  cs.foldl (fun p c => commitStep cfg c p) p

/-- Apply the forward callables of a commit sequence in order. -/
def foldApply (cs : List (Commit α)) (d : α) : α :=
  cs.foldl (fun d c => c.doFn d) d

/-- Call `undo()` `n` times, keeping state and document. -/
def undoN : Nat → UndoStackState α × α → UndoStackState α × α
  | 0, p => p
  | n + 1, p =>
      let r := undo p.1 p.2
      undoN n (r.1, r.2.1)

/-- One undo followed by one redo, keeping state and document. -/
def undoRedoCycle (p : UndoStackState α × α) : UndoStackState α × α :=
  let u := undo p.1 p.2
  let r := redo u.1 u.2.1
  (r.1, r.2.1)

/-! Shallow embedding of the async-generation error boundary
(`ImageGenerator.start_and_manage_image_generation` in
`src/controller/image_generation/image_generator.py`). -/

/-- The class of a Python exception raised by the generation backend.  The
named constructors are the classes `_do_inpaint` lists in its `except`
clause; every other class is `other`. -/
inductive PyExcClass where
  | ioError
  | valueError
  | runtimeError
  | other (name : String)
deriving DecidableEq, Repr

/-- Outcome of running the `_do_inpaint` task body. -/
inductive InpaintOutcome where
  | finishedOk
  | errorSignalEmitted (e : PyExcClass)
  | raisedUncaught (e : PyExcClass)
deriving DecidableEq, Repr

/-- Task body `_do_inpaint`: call `self.generate`; an `IOError`, `ValueError` or
`RuntimeError` raised there is caught and emitted on `error_signal`; any
other exception class is not caught by the `except` clause and propagates
out of the task body. -/
def do_inpaint (generate_result : Except PyExcClass Unit) : InpaintOutcome :=
  match generate_result with
  | .ok _ => .finishedOk
  | .error e =>
      match e with
      | .ioError => .errorSignalEmitted .ioError
      | .valueError => .errorSignalEmitted .valueError
      | .runtimeError => .errorSignalEmitted .runtimeError
      | .other n => .raisedUncaught (.other n)

/-- The UI/document state `handle_error` can reach: the result-picker
visibility flag, the error dialogs shown so far, and the document (an
abstract value the handler never touches). -/
structure GeneratorUiState (α : Type) where
  image_selector_visible : Bool
  error_dialogs : List PyExcClass
  document : α

/-- Handler `handle_error`: hide the image selector (tear down the open
result-picker) and show an error dialog for the delivered exception.  The
document is not touched. -/
def handle_error (err : PyExcClass) (ui : GeneratorUiState α) : GeneratorUiState α :=
  { ui with image_selector_visible := false
            error_dialogs := ui.error_dialogs ++ [err] }

/-! Derived notions and concrete inputs used in the statements below. -/

/-- A commit sequence is non-merging for a configuration when consecutive
commits are separated by at least the configured merge interval. -/
def NonMerging (cfg : AppConfigModel) (cs : List (Commit α)) : Prop :=
  List.Chain' (fun a b => cfg.undo_merge_interval ≤ b.now - a.now) cs

/-- Execute the `undo()` of a list of stack entries newest-last, the way
repeated `undo()` calls pop them: last entry first. -/
def applyRev (l : List (Entry α)) (d : α) : α :=
  l.reverse.foldl (fun d e => e.undoApply d) d

/-- A concrete locked `UndoStack` state over an integer document. -/
def lockedState : UndoStackState ℤ :=
  { initialState ℤ with lock_held := true }

/-- A concrete state with an open one-action group over an integer
document. -/
def openGroupState : UndoStackState ℤ :=
  { initialState ℤ with
      open_group := some
        ((UGroup.new "brush" 0).add_to_group (fun x => x - 1) (fun x => x + 1)
          "brush" 0) }

/-- A trivial concrete stack entry over an integer document. -/
def idEntry : Entry ℤ :=
  Entry.single { undo := fun x => x, redo := fun x => x, type := "a", timestamp := 0 }

/-- A stack already holding `MAX_UNDO` entries. -/
def fullStack : List (Entry ℤ) := List.replicate 50 idEntry

/-- A configuration whose (spec-claimed) max-history-size is 1, with a
merge interval of 0 so that no commits merge. -/
def cfgSmallHistory : AppConfigModel :=
  { undo_merge_interval := 0, max_history_size := 1 }

/-- A configuration with a 10-second merge interval. -/
def cfgMerge : AppConfigModel :=
  { undo_merge_interval := 10, max_history_size := 50 }

/-- An increment commit stamped at time `i`. -/
def incCommit (i : ℚ) : Commit ℤ :=
  { doFn := fun x => x + 1, undoFn := fun x => x - 1, ctype := "inc", now := i }

/-- Fifty-one identical non-merging increment commits (all stamped 0, with
a merge interval of 0 they never merge). -/
def cs51 : List (Commit ℤ) := List.replicate 51 (incCommit 0)

/-! Helper lemmas about `truncFront` and `add_to_stack`. -/

theorem truncFront_eq_drop (n : Nat) :
    ∀ l : List β, truncFront n l = l.drop (l.length - n)
  | [] => by simp [truncFront]
  | x :: xs => by
      rw [truncFront]
      by_cases h : (x :: xs).length > n
      · rw [if_pos h, truncFront_eq_drop n xs]
        simp only [List.length_cons] at h ⊢
        have hn : xs.length + 1 - n = (xs.length - n) + 1 := by omega
        rw [hn, List.drop_succ_cons]
      · rw [if_neg h]
        simp only [List.length_cons] at h
        have hz : (x :: xs).length - n = 0 := by simp only [List.length_cons]; omega
        rw [hz, List.drop_zero]

theorem truncFront_length (n : Nat) (l : List β) :
    (truncFront n l).length = min n l.length := by
  rw [truncFront_eq_drop, List.length_drop]
  omega

theorem truncFront_of_length_le (n : Nat) (l : List β) (h : l.length ≤ n) :
    truncFront n l = l := by
  rw [truncFront_eq_drop]
  have hz : l.length - n = 0 := by omega
  rw [hz, List.drop_zero]

theorem truncFront_getLast? (n : Nat) (l : List β) (hn : 1 ≤ n) (hl : l ≠ []) :
    (truncFront n l).getLast? = l.getLast? := by
  rw [truncFront_eq_drop]
  conv_rhs => rw [← List.take_append_drop (l.length - n) l]
  rw [List.getLast?_append_of_ne_nil]
  intro hdrop
  have hlen := congrArg List.length hdrop
  rw [List.length_drop, List.length_nil] at hlen
  have hnil : l.length = 0 := by omega
  exact hl (List.length_eq_zero.mp hnil)

theorem truncFront_idem_append (n : Nat) (l : List β) (e : β) (hn : 1 ≤ n) :
    truncFront n (truncFront n l ++ [e]) = truncFront n (l ++ [e]) := by
  by_cases h : l.length ≤ n
  · rw [truncFront_of_length_le n l h]
  · push_neg at h
    rw [truncFront_eq_drop n l, truncFront_eq_drop, truncFront_eq_drop]
    have h1 : (List.drop (l.length - n) l).length = n := by
      rw [List.length_drop]
      omega
    have hk1 : (List.drop (l.length - n) l ++ [e]).length - n = 1 := by
      rw [List.length_append, h1, List.length_singleton]
      omega
    have hk2 : (l ++ [e]).length - n = (l.length - n) + 1 := by
      rw [List.length_append, List.length_singleton]
      omega
    rw [hk1, hk2,
      List.drop_append_of_le_length (by omega : 1 ≤ (List.drop (l.length - n) l).length),
      List.drop_append_of_le_length (by omega : l.length - n + 1 ≤ l.length),
      List.drop_drop]

/-- The list produced by `_add_to_stack` is always `truncFront MAX_UNDO` of
the appended list, and it never exceeds the bound. -/
theorem add_to_stack_fst (item : Entry α) (stack : List (Entry α))
    (mk : Nat → SignalEvent) :
    (add_to_stack item stack mk).1 = truncFront MAX_UNDO (stack ++ [item]) := by
  unfold add_to_stack
  by_cases h : (stack ++ [item]).length > MAX_UNDO
  · rw [if_pos h]
  · rw [if_neg h, truncFront_of_length_le _ _ (Nat.not_lt.mp h)]

theorem add_to_stack_length_le (item : Entry α) (stack : List (Entry α))
    (mk : Nat → SignalEvent) :
    (add_to_stack item stack mk).1.length ≤ MAX_UNDO := by
  rw [add_to_stack_fst, truncFront_length]
  omega

theorem add_to_stack_getLast? (item : Entry α) (stack : List (Entry α))
    (mk : Nat → SignalEvent) :
    (add_to_stack item stack mk).1.getLast? = some item := by
  rw [add_to_stack_fst,
    truncFront_getLast? MAX_UNDO (stack ++ [item]) (by decide) (by simp)]
  exact List.getLast?_concat _

/-- Pushing onto a list strictly below the bound appends without
truncation and emits the new length. -/
theorem add_to_stack_of_lt (item : Entry α) (stack : List (Entry α))
    (mk : Nat → SignalEvent) (h : stack.length < MAX_UNDO) :
    add_to_stack item stack mk =
      (stack ++ [item], [mk (stack.length + 1)]) := by
  rw [add_to_stack]
  have hlen : (stack ++ [item]).length = stack.length + 1 := by simp
  rw [hlen]
  simp only [gt_iff_lt]
  rw [if_neg (by omega)]

theorem isSubstring_refl (l : List Char) : isSubstring l l = true := by
  cases l with
  | nil => rfl
  | cons b bs => simp [isSubstring, List.isPrefixOf_iff_prefix]

/-! Characterizations of the individual `UndoStack` operations. -/

/-- Calling `undo()` on a non-empty undo stack pops the newest entry, runs its
undo on the document, and moves the entry to the redo stack. -/
theorem undo_pop (s : UndoStackState α) (d : α) (e : Entry α)
    (hl : s.undo_stack.getLast? = some e) :
    undo s d =
      ({ s with undo_stack := s.undo_stack.dropLast,
                redo_stack :=
                  (add_to_stack e s.redo_stack SignalEvent.redoCountChanged).1,
                undo_in_progress := false },
       e.undoApply d,
       SignalEvent.undoCountChanged s.undo_stack.dropLast.length ::
         (add_to_stack e s.redo_stack SignalEvent.redoCountChanged).2) := by
  unfold undo
  simp only [hl]

/-- Calling `undo()` on an empty undo stack returns early, leaving everything
unchanged except the `undo_in_progress` flag, which stays `true`. -/
theorem undo_empty (s : UndoStackState α) (d : α)
    (hl : s.undo_stack.getLast? = none) :
    undo s d = ({ s with undo_in_progress := true }, d, []) := by
  unfold undo
  simp only [hl]

/-- Calling `redo()` on a non-empty redo stack pops the newest entry, runs its
redo on the document, and moves the entry back to the undo stack. -/
theorem redo_pop (s : UndoStackState α) (d : α) (e : Entry α)
    (hl : s.redo_stack.getLast? = some e) :
    redo s d =
      ({ s with undo_stack :=
                  (add_to_stack e s.undo_stack SignalEvent.undoCountChanged).1,
                redo_stack := s.redo_stack.dropLast },
       e.redoApply d,
       SignalEvent.redoCountChanged s.redo_stack.dropLast.length ::
         (add_to_stack e s.undo_stack SignalEvent.undoCountChanged).2) := by
  unfold redo
  simp only [hl]

/-- Running `commit_action` with the lock free, no open group, and no merge
possible (either the undo stack is empty or the previous entry is older
than the merge interval) pushes a fresh `_UndoAction` and clears the redo
stack. -/
theorem commit_action_push (cfg : AppConfigModel) (now : ℚ) (f g : α → α)
    (t : String) (s : UndoStackState α) (d : α)
    (hlock : s.lock_held = false) (hog : s.open_group = none)
    (hnm : ∀ prev ∈ s.undo_stack.getLast?,
      ¬(now - Entry.timestamp prev < cfg.undo_merge_interval)) :
    commit_action cfg now f g t false s d =
      (.ok true,
       { s with
           undo_stack :=
             (add_to_stack (Entry.single ⟨g, f, t, now⟩) s.undo_stack
               SignalEvent.undoCountChanged).1,
           redo_stack := [],
           in_progress_change := "none" },
       f d,
       (add_to_stack (Entry.single ⟨g, f, t, now⟩) s.undo_stack
          SignalEvent.undoCountChanged).2 ++
         (if s.redo_stack.length > 0 then [SignalEvent.redoCountChanged 0]
          else [])) := by
  have hredo1 : (if s.redo_stack.length > 0 then
      (([] : List (Entry α)), [SignalEvent.redoCountChanged 0])
      else (s.redo_stack, [])).1 = [] := by
    by_cases hr : s.redo_stack.length > 0
    · rw [if_pos hr]
    · rw [if_neg hr]
      show s.redo_stack = []
      exact List.eq_nil_of_length_eq_zero (by omega)
  have hredo2 : (if s.redo_stack.length > 0 then
      (([] : List (Entry α)), [SignalEvent.redoCountChanged 0])
      else (s.redo_stack, [])).2 =
      (if s.redo_stack.length > 0 then [SignalEvent.redoCountChanged 0]
       else []) := by
    by_cases hr : s.redo_stack.length > 0
    · rw [if_pos hr, if_pos hr]
    · rw [if_neg hr, if_neg hr]
  cases hl : s.undo_stack.getLast? with
  | none =>
      unfold commit_action
      simp only [hlock, Bool.false_eq_true, if_false, hog, hl, hredo1, hredo2]
  | some prev =>
      have hp := hnm prev hl
      unfold commit_action
      simp only [hlock, Bool.false_eq_true, if_false, hog, hl, hredo1, hredo2]
      cases prev with
      | single pa =>
          simp only [Entry.timestamp] at hp
          simp only [Entry.timestamp, hp, if_false]
      | group pg =>
          simp only [Entry.timestamp] at hp
          simp only [Entry.timestamp, hp, if_false]

/-- Running `commit_action` with the lock free, no open group, and a previous
single entry inside the merge interval removes that entry, wraps both
transactions in a fresh `_UndoGroup` (previous first, newest last), and
pushes the group as one entry. -/
theorem commit_action_merge_single (cfg : AppConfigModel) (now : ℚ)
    (f g : α → α) (t : String) (s : UndoStackState α) (d : α) (pa : UAction α)
    (hlock : s.lock_held = false) (hog : s.open_group = none)
    (hl : s.undo_stack.getLast? = some (Entry.single pa))
    (hm : now - pa.timestamp < cfg.undo_merge_interval) :
    commit_action cfg now f g t false s d =
      (.ok true,
       { s with
           undo_stack :=
             (add_to_stack
               (Entry.group
                 (((UGroup.new pa.type now).add_to_group pa.undo pa.redo pa.type
                     now).add_to_group g f t now))
               s.undo_stack.dropLast SignalEvent.undoCountChanged).1,
           redo_stack := [],
           in_progress_change := "none" },
       f d,
       (add_to_stack
          (Entry.group
            (((UGroup.new pa.type now).add_to_group pa.undo pa.redo pa.type
                now).add_to_group g f t now))
          s.undo_stack.dropLast SignalEvent.undoCountChanged).2 ++
         (if s.redo_stack.length > 0 then [SignalEvent.redoCountChanged 0]
          else [])) := by
  have hredo1 : (if s.redo_stack.length > 0 then
      (([] : List (Entry α)), [SignalEvent.redoCountChanged 0])
      else (s.redo_stack, [])).1 = [] := by
    by_cases hr : s.redo_stack.length > 0
    · rw [if_pos hr]
    · rw [if_neg hr]
      show s.redo_stack = []
      exact List.eq_nil_of_length_eq_zero (by omega)
  have hredo2 : (if s.redo_stack.length > 0 then
      (([] : List (Entry α)), [SignalEvent.redoCountChanged 0])
      else (s.redo_stack, [])).2 =
      (if s.redo_stack.length > 0 then [SignalEvent.redoCountChanged 0]
       else []) := by
    by_cases hr : s.redo_stack.length > 0
    · rw [if_pos hr, if_pos hr]
    · rw [if_neg hr, if_neg hr]
  unfold commit_action
  simp only [hlock, Bool.false_eq_true, if_false, hog, hl, hredo1, hredo2,
    Entry.timestamp, hm, if_true]

/-! History-level lemmas: folding commit sequences and repeated undo. -/

theorem foldCommits_append (cfg : AppConfigModel) (cs ds : List (Commit α))
    (p : UndoStackState α × α) :
    foldCommits cfg (cs ++ ds) p = foldCommits cfg ds (foldCommits cfg cs p) :=
  List.foldl_append _ _ _ _

theorem foldApply_append (cs ds : List (Commit α)) (d : α) :
    foldApply (cs ++ ds) d = foldApply ds (foldApply cs d) :=
  List.foldl_append _ _ _ _

theorem applyRev_concat (l : List (Entry α)) (e : Entry α) (d : α) :
    applyRev (l ++ [e]) d = applyRev l (e.undoApply d) := by
  simp [applyRev, List.reverse_append]

/-- Folding a non-merging commit sequence from the fresh state: every
commit is pushed individually, the undo stack is the entry list truncated
to the newest `MAX_UNDO`, and the document is the forward fold. -/
theorem foldCommits_spaced (cfg : AppConfigModel) (cs : List (Commit α))
    (d0 : α) (hsp : NonMerging cfg cs) :
    foldCommits cfg cs (initialState α, d0) =
      ({ initialState α with
           undo_stack := truncFront MAX_UNDO (cs.map entryOf) },
       foldApply cs d0) := by
  induction cs using List.reverseRecOn with
  | nil => rfl
  | append_singleton cs c ih =>
      rw [NonMerging, List.chain'_append] at hsp
      obtain ⟨hsp', _, hlastrel⟩ := hsp
      rw [foldCommits_append, ih hsp']
      have hstep : foldCommits cfg [c]
          (({ initialState α with
               undo_stack := truncFront MAX_UNDO (cs.map entryOf) } :
             UndoStackState α), foldApply cs d0) =
          commitStep cfg c
            ({ initialState α with
                undo_stack := truncFront MAX_UNDO (cs.map entryOf) },
             foldApply cs d0) := by
        simp [foldCommits]
      rw [hstep]
      simp only [commitStep]
      have hnm : ∀ prev ∈ (truncFront MAX_UNDO (cs.map entryOf)).getLast?,
          ¬(c.now - Entry.timestamp prev < cfg.undo_merge_interval) := by
        intro prev hprev
        cases hq : cs.getLast? with
        | none =>
            have hcs : cs = [] := List.getLast?_eq_none_iff.mp hq
            rw [hcs] at hprev
            simp [truncFront] at hprev
        | some clast =>
            have hcsne : cs ≠ [] := by
              intro h
              rw [h] at hq
              cases hq
            rw [truncFront_getLast? MAX_UNDO _ (by decide)
              (by simpa using hcsne), List.getLast?_map, hq] at hprev
            have hpe : entryOf clast = prev := by simpa using hprev
            have hrel := hlastrel clast hq c rfl
            rw [← hpe, entryOf]
            simp only [Entry.timestamp]
            exact not_lt.mpr (by linarith)
      rw [commit_action_push cfg c.now c.doFn c.undoFn c.ctype _ _ rfl rfl hnm]
      simp only [add_to_stack_fst]
      rw [truncFront_idem_append MAX_UNDO _ _ (by decide)]
      have hmap : (cs ++ [c]).map entryOf = cs.map entryOf ++ [entryOf c] := by
        simp
      rw [hmap, foldApply_append]
      simp [foldApply, entryOf, initialState]

/-- Undoing as many times as the undo stack is long executes the entries'
undo callables newest-first on the document. -/
theorem undoN_doc (l : List (Entry α)) :
    ∀ (s : UndoStackState α) (d : α), s.undo_stack = l →
      (undoN l.length (s, d)).2 = applyRev l d := by
  induction l using List.reverseRecOn with
  | nil => intro s d _; rfl
  | append_singleton l' e ih =>
      intro s d hs
      have hlen : (l' ++ [e]).length = l'.length + 1 := by simp
      rw [hlen, undoN]
      have hl : s.undo_stack.getLast? = some e := by
        rw [hs]; exact List.getLast?_concat _
      rw [undo_pop s d e hl]
      have hdrop : s.undo_stack.dropLast = l' := by
        rw [hs]; exact List.dropLast_concat
      rw [applyRev_concat]
      exact ih _ (e.undoApply d) hdrop

/-- If every commit's undo exactly inverts its action, executing the
corresponding entries' undo callables newest-first cancels the forward
fold. -/
theorem applyRev_entryOf_cancels (ds : List (Commit α))
    (hinv : ∀ c ∈ ds, ∀ x, c.undoFn (c.doFn x) = x) :
    ∀ d : α, applyRev (ds.map entryOf) (foldApply ds d) = d := by
  induction ds using List.reverseRecOn with
  | nil => intro d; rfl
  | append_singleton ds' c ih =>
      intro d
      have hmap : (ds' ++ [c]).map entryOf = ds'.map entryOf ++ [entryOf c] := by
        simp
      rw [hmap, foldApply_append, applyRev_concat]
      have hc : ∀ x, c.undoFn (c.doFn x) = x := hinv c (by simp)
      have he : (entryOf c).undoApply (foldApply [c] (foldApply ds' d)) =
          foldApply ds' d := by
        simp [entryOf, Entry.undoApply, foldApply, hc]
      rw [he]
      exact ih (fun c' hc' => hinv c' (by simp [hc'])) d

/-- One `undo()` followed by one `redo()` is the identity on any reachable
post-commit configuration: non-empty undo stack within the bound, empty
redo stack, no undo in progress, and an entry whose redo cancels its undo
at the current document. -/
theorem undoRedoCycle_fixed (s : UndoStackState α) (d : α) (e : Entry α)
    (hl : s.undo_stack.getLast? = some e)
    (hlen : s.undo_stack.length ≤ MAX_UNDO)
    (hredo : s.redo_stack = []) (huip : s.undo_in_progress = false)
    (hrt : e.redoApply (e.undoApply d) = d) :
    undoRedoCycle (s, d) = (s, d) := by
  obtain ⟨us, rs, lh, og, ipc, uip⟩ := s
  simp only at hl hlen hredo huip
  subst hredo huip
  have hne : us ≠ [] := by
    intro h
    rw [h] at hl
    cases hl
  have hlt : us.dropLast.length < MAX_UNDO := by
    rw [List.length_dropLast]
    have hpos := List.length_pos.mpr hne
    simp only [MAX_UNDO] at hlen ⊢
    omega
  simp only [undoRedoCycle]
  rw [undo_pop ⟨us, [], lh, og, ipc, false⟩ d e hl]
  rw [add_to_stack_of_lt e ([] : List (Entry α)) SignalEvent.redoCountChanged
    (by simp [MAX_UNDO])]
  rw [redo_pop ⟨us.dropLast, [] ++ [e], lh, og, ipc, false⟩ (e.undoApply d) e
    (by simp)]
  rw [add_to_stack_of_lt e us.dropLast SignalEvent.undoCountChanged hlt]
  rw [List.dropLast_append_getLast? e hl, hrt]
  rfl

/-- Building an `_UndoGroup` by successive `add_to_group` calls stores the
undo callables newest-first and the redo callables oldest-first. -/
theorem groupFold_order (acts : List (Commit α)) :
    ∀ G : UGroup α,
      ((acts.foldl (fun G c => G.add_to_group c.undoFn c.doFn c.ctype c.now)
          G).undo_actions = (acts.map Commit.undoFn).reverse ++ G.undo_actions) ∧
      ((acts.foldl (fun G c => G.add_to_group c.undoFn c.doFn c.ctype c.now)
          G).redo_actions = G.redo_actions ++ acts.map Commit.doFn) := by
  induction acts with
  | nil => intro G; simp
  | cons c cs ih =>
      intro G
      simp only [List.foldl_cons, List.map_cons, List.reverse_cons]
      obtain ⟨h1, h2⟩ := ih (G.add_to_group c.undoFn c.doFn c.ctype c.now)
      constructor
      · rw [h1]
        simp [UGroup.add_to_group]
      · rw [h2]
        simp [UGroup.add_to_group]

/-! Claim theorems. -/

/-- C4: invoking `commit_action` while the non-reentrant access lock is
already held raises the concurrency error before running the action or
touching either stack: the returned state, document and signal list show
the undo and redo lists exactly as before the call, the action not
executed, and nothing emitted. -/
theorem commit_action_locked_fails (cfg : AppConfigModel) (now : ℚ)
    (action undo_action : α → α) (action_type : String) (skip : Bool)
    (s : UndoStackState α) (doc : α) (h : s.lock_held = true) :
    commit_action cfg now action undo_action action_type skip s doc =
      (.error ("Concurrent undo history changes detected! Attempted: " ++ action_type ++
               ", in-progress: " ++ s.in_progress_change), s, doc, []) := by
  unfold commit_action
  rw [h]
  rfl

theorem commit_action_locked_fails_witness :
    lockedState.lock_held = true ∧
    commit_action ⟨10, 50⟩ 0 (fun x => x + 1) (fun x => x - 1) "paint" false
        lockedState 0 =
      (.error ("Concurrent undo history changes detected! Attempted: " ++ "paint" ++
               ", in-progress: " ++ lockedState.in_progress_change),
       lockedState, 0, []) :=
  ⟨rfl, commit_action_locked_fails ⟨10, 50⟩ 0 (fun x => x + 1) (fun x => x - 1)
    "paint" false lockedState 0 rfl⟩

/-- C6 (code bug): calling `undo()` on an empty undo stack leaves both
stacks, both counts, and the signals untouched, but it sets the public
`undo_in_progress` flag to `true` and never resets it on that path —
contradicting both the spec's "no-op on empty stacks" and the property's
own docstring ("whether an undo action is currently in progress").
`redo()` on an empty redo stack really is a complete no-op. -/
theorem undo_empty_stack_flag_bug :
    (initialState ℤ).undo_in_progress = false ∧
    undo (initialState ℤ) 0 =
      ({ initialState ℤ with undo_in_progress := true }, 0, []) ∧
    redo (initialState ℤ) 0 = (initialState ℤ, 0, []) :=
  ⟨rfl, rfl, rfl⟩

/-- C8: when `combining_actions` exits normally, the open group is pushed
onto the undo stack as one single entry only when at least one action was
committed into it; an opened-but-empty group is discarded with the undo
stack unchanged and nothing emitted, and the open-group slot is cleared in
both cases. -/
theorem combining_actions_close_spec (s : UndoStackState α) (G : UGroup α)
    (t : String) (hlock : s.lock_held = false) (hog : s.open_group = some G)
    (hpre : t.data.isPrefixOf G.type.data = true) :
    combining_actions_close t s =
      (if 0 < G.count then
        (.ok (),
         { s with
             undo_stack :=
               (add_to_stack (Entry.group G) s.undo_stack SignalEvent.undoCountChanged).1,
             open_group := none },
         (add_to_stack (Entry.group G) s.undo_stack SignalEvent.undoCountChanged).2)
      else
        (.ok (), { s with open_group := none }, ([] : List SignalEvent))) := by
  unfold combining_actions_close
  rw [hlock, hog]
  simp only [Bool.false_eq_true, if_false, hpre, if_true]

theorem combining_actions_close_spec_witness :
    openGroupState.lock_held = false ∧
    openGroupState.open_group = some
      ((UGroup.new "brush" 0).add_to_group (fun x => x - 1) (fun x => x + 1)
        "brush" 0) ∧
    ("brush".data.isPrefixOf ((UGroup.new "brush" 0).add_to_group (fun x => x - 1)
        (fun x => x + 1) "brush" 0).type.data = true) ∧
    combining_actions_close "brush" openGroupState =
      (if 0 < ((UGroup.new "brush" 0).add_to_group (fun x => x - 1)
          (fun x => x + 1) "brush" 0).count then
        (.ok (),
         { openGroupState with
             undo_stack :=
               (add_to_stack
                 (Entry.group ((UGroup.new "brush" 0).add_to_group (fun x => x - 1)
                   (fun x => x + 1) "brush" 0))
                 openGroupState.undo_stack SignalEvent.undoCountChanged).1,
             open_group := none },
         (add_to_stack
           (Entry.group ((UGroup.new "brush" 0).add_to_group (fun x => x - 1)
             (fun x => x + 1) "brush" 0))
           openGroupState.undo_stack SignalEvent.undoCountChanged).2)
      else
        (.ok (), { openGroupState with open_group := none },
         ([] : List SignalEvent))) :=
  ⟨rfl, rfl, rfl,
    combining_actions_close_spec openGroupState _ "brush" rfl rfl rfl⟩

/-- C10: if the body of a `combining_actions` context raises, no cleanup
runs: the freshly opened group stays open, every subsequent `commit_action`
appends to the abandoned group and leaves the top-level undo stack exactly
as it was, and any further `combining_actions` entry raises the
"group is still open" `RuntimeError`. -/
theorem combining_actions_abandoned_group (s : UndoStackState α) (t : String)
    (now : ℚ) (hlock : s.lock_held = false) (hog : s.open_group = none) :
    (combining_actions_open t now s).1 = .ok () ∧
    (combining_actions_open t now s).2 =
      { s with open_group := some (UGroup.new t now) } ∧
    (∀ (cfg : AppConfigModel) (now2 : ℚ) (f g : α → α) (t2 : String) (d : α),
      commit_action cfg now2 f g t2 false (combining_actions_open t now s).2 d =
        (.ok true,
         { s with
             open_group := some ((UGroup.new t now).add_to_group g f t2 now2),
             redo_stack := if s.redo_stack.length > 0 then [] else s.redo_stack,
             in_progress_change := "none" },
         f d,
         if s.redo_stack.length > 0 then [SignalEvent.redoCountChanged 0]
         else [])) ∧
    (∀ (t3 : String) (now3 : ℚ),
      (combining_actions_open t3 now3 (combining_actions_open t now s).2).1 =
        .error ("Tried to create " ++ t3 ++ " combined action group, but " ++ t ++
                " group is still open")) := by
  have hopen : combining_actions_open t now s =
      (.ok (), { s with open_group := some (UGroup.new t now) }) := by
    unfold combining_actions_open
    rw [hlock, hog]
    rfl
  refine ⟨by rw [hopen], by rw [hopen], ?_, ?_⟩
  · intro cfg now2 f g t2 d
    rw [hopen]
    by_cases hr : s.redo_stack.length > 0
    · simp [commit_action, hlock, hr]
    · simp [commit_action, hlock, hr]
  · intro t3 now3
    rw [hopen]
    simp [combining_actions_open, UGroup.new, hlock]

theorem combining_actions_abandoned_group_witness :
    (initialState ℤ).lock_held = false ∧ (initialState ℤ).open_group = none ∧
    ((combining_actions_open "grp" 0 (initialState ℤ)).1 = .ok () ∧
     (combining_actions_open "grp" 0 (initialState ℤ)).2 =
       { initialState ℤ with open_group := some (UGroup.new "grp" 0) } ∧
     (∀ (cfg : AppConfigModel) (now2 : ℚ) (f g : ℤ → ℤ) (t2 : String) (d : ℤ),
       commit_action cfg now2 f g t2 false
           (combining_actions_open "grp" 0 (initialState ℤ)).2 d =
         (.ok true,
          { initialState ℤ with
              open_group := some ((UGroup.new "grp" 0).add_to_group g f t2 now2),
              redo_stack := if (initialState ℤ).redo_stack.length > 0 then []
                            else (initialState ℤ).redo_stack,
              in_progress_change := "none" },
          f d,
          if (initialState ℤ).redo_stack.length > 0 then
            [SignalEvent.redoCountChanged 0]
          else [])) ∧
     (∀ (t3 : String) (now3 : ℚ),
       (combining_actions_open t3 now3
           (combining_actions_open "grp" 0 (initialState ℤ)).2).1 =
         .error ("Tried to create " ++ t3 ++ " combined action group, but " ++
                 "grp" ++ " group is still open"))) :=
  ⟨rfl, rfl, combining_actions_abandoned_group (initialState ℤ) "grp" 0 rfl rfl⟩

/-- C5 (counterexample): the task body `_do_inpaint` catches only
`IOError`, `ValueError` and `RuntimeError`; an exception of any other
class — here a `TypeError` — raised by the backend propagates out of the
task body uncaught instead of being delivered as an error event. -/
theorem do_inpaint_uncaught_class :
    do_inpaint (Except.error (PyExcClass.other "TypeError")) =
      InpaintOutcome.raisedUncaught (PyExcClass.other "TypeError") ∧
    do_inpaint (Except.error (PyExcClass.other "TypeError")) ≠
      InpaintOutcome.errorSignalEmitted (PyExcClass.other "TypeError") :=
  ⟨rfl, by decide⟩

/-- C5 (amended): exceptions of class `IOError`, `ValueError` or `RuntimeError` raised while
the async generation task executes the backend is caught at the task
boundary and delivered on `error_signal`; handling it hides the open
result-picker, records an error dialog, and leaves the document untouched.
A successful run emits no error. -/
theorem do_inpaint_caught_classes (e : PyExcClass) (ui : GeneratorUiState γ)
    (h : e = .ioError ∨ e = .valueError ∨ e = .runtimeError) :
    do_inpaint (Except.error e) = InpaintOutcome.errorSignalEmitted e ∧
    (handle_error e ui).image_selector_visible = false ∧
    (handle_error e ui).error_dialogs = ui.error_dialogs ++ [e] ∧
    (handle_error e ui).document = ui.document ∧
    do_inpaint (Except.ok ()) = InpaintOutcome.finishedOk := by
  rcases h with h | h | h <;> subst h <;> exact ⟨rfl, rfl, rfl, rfl, rfl⟩

theorem do_inpaint_caught_classes_witness :
    (PyExcClass.ioError = PyExcClass.ioError ∨ PyExcClass.ioError = .valueError ∨
      PyExcClass.ioError = .runtimeError) ∧
    (do_inpaint (Except.error PyExcClass.ioError) =
        InpaintOutcome.errorSignalEmitted PyExcClass.ioError ∧
     (handle_error PyExcClass.ioError
        (⟨true, [], (0 : ℤ)⟩ : GeneratorUiState ℤ)).image_selector_visible = false ∧
     (handle_error PyExcClass.ioError
        (⟨true, [], (0 : ℤ)⟩ : GeneratorUiState ℤ)).error_dialogs =
       ([] : List PyExcClass) ++ [PyExcClass.ioError] ∧
     (handle_error PyExcClass.ioError
        (⟨true, [], (0 : ℤ)⟩ : GeneratorUiState ℤ)).document = (0 : ℤ) ∧
     do_inpaint (Except.ok ()) = InpaintOutcome.finishedOk) :=
  ⟨Or.inl rfl,
    do_inpaint_caught_classes PyExcClass.ioError ⟨true, [], (0 : ℤ)⟩ (Or.inl rfl)⟩

/-- C7 (counterexample): pushing onto a stack of exactly 50 entries makes
the length exceed the bound and drops the oldest entry, but `_add_to_stack`
emits NO count-changed notification in that case (its guard skips the emit
precisely when the post-push length is `MAX_UNDO + 1`). -/
theorem add_to_stack_no_signal_at_51 :
    (fullStack ++ [idEntry]).length = 51 ∧
    (add_to_stack idEntry fullStack SignalEvent.undoCountChanged).2 = [] ∧
    (add_to_stack idEntry fullStack SignalEvent.undoCountChanged).1.length = 50 := by
  refine ⟨by simp [fullStack], rfl, ?_⟩
  rw [add_to_stack_fst, truncFront_length]
  simp [fullStack, MAX_UNDO]

/-- C7 (amended): whenever pushing makes a stack's length exceed
`MAX_UNDO = 50`, the oldest entries are discarded from the front until
exactly 50 remain (preserving the relative order of the rest); a
count-changed notification carrying 50 is emitted only when the post-push
length differs from 51 — in the standard case of exceeding the bound by
exactly one, nothing is emitted, since the observable count stays 50. -/
theorem add_to_stack_truncation (l : List (Entry γ)) (e : Entry γ)
    (mk : Nat → SignalEvent) (h : MAX_UNDO ≤ l.length) :
    (add_to_stack e l mk).1 = (l ++ [e]).drop (l.length + 1 - MAX_UNDO) ∧
    (add_to_stack e l mk).1.length = MAX_UNDO ∧
    (add_to_stack e l mk).2 =
      (if l.length + 1 = MAX_UNDO + 1 then [] else [mk MAX_UNDO]) := by
  have hlen : (l ++ [e]).length = l.length + 1 := by simp
  refine ⟨?_, ?_, ?_⟩
  · rw [add_to_stack_fst, truncFront_eq_drop, hlen]
  · rw [add_to_stack_fst, truncFront_length, hlen]
    omega
  · rw [add_to_stack]
    have hgt : (l ++ [e]).length > MAX_UNDO := by rw [hlen]; omega
    rw [if_pos hgt, hlen]
    by_cases hc : l.length + 1 = MAX_UNDO + 1
    · rw [if_pos hc, if_neg (by omega)]
    · rw [if_neg hc, if_pos hc]

theorem add_to_stack_truncation_witness :
    MAX_UNDO ≤ fullStack.length ∧
    ((add_to_stack idEntry fullStack SignalEvent.undoCountChanged).1 =
       (fullStack ++ [idEntry]).drop (fullStack.length + 1 - MAX_UNDO) ∧
     (add_to_stack idEntry fullStack SignalEvent.undoCountChanged).1.length =
       MAX_UNDO ∧
     (add_to_stack idEntry fullStack SignalEvent.undoCountChanged).2 =
       (if fullStack.length + 1 = MAX_UNDO + 1 then []
        else [SignalEvent.undoCountChanged MAX_UNDO])) :=
  ⟨by decide, add_to_stack_truncation fullStack idEntry
    SignalEvent.undoCountChanged (by decide)⟩

/-- C1: committing a transaction whose do/undo functions are exact
inverses records it so that `undo()` executes the recorded undo function
(giving back the pre-action document) and `redo()` re-executes the forward
function, and the whole undo/redo cycle is the identity on stack and
document for every number of repetitions; a group accumulated through
`add_to_group` keeps its undo callables in reverse commit order and its
redo callables in commit order, which is the order `_UndoGroup.undo` and
`_UndoGroup.redo` execute them. -/
theorem commit_round_trip (cfg : AppConfigModel) (now : ℚ) (f g : γ → γ)
    (t : String) (s : UndoStackState γ) (d : γ)
    (hlock : s.lock_held = false) (hog : s.open_group = none)
    (huip : s.undo_in_progress = false)
    (hnm : ∀ prev ∈ s.undo_stack.getLast?,
      ¬(now - Entry.timestamp prev < cfg.undo_merge_interval))
    (hgf : ∀ x, g (f x) = x) (hfg : ∀ x, f (g x) = x) :
    (commit_action cfg now f g t false s d).1 = .ok true ∧
    (commit_action cfg now f g t false s d).2.2.1 = f d ∧
    (∀ n : ℕ,
      undoRedoCycle^[n]
        ((commit_action cfg now f g t false s d).2.1,
         (commit_action cfg now f g t false s d).2.2.1) =
        ((commit_action cfg now f g t false s d).2.1,
         (commit_action cfg now f g t false s d).2.2.1)) ∧
    (∀ n : ℕ,
      (undo (undoRedoCycle^[n]
          ((commit_action cfg now f g t false s d).2.1,
           (commit_action cfg now f g t false s d).2.2.1)).1
        (undoRedoCycle^[n]
          ((commit_action cfg now f g t false s d).2.1,
           (commit_action cfg now f g t false s d).2.2.1)).2).2.1 = d) ∧
    (∀ acts : List (Commit γ),
      (acts.foldl (fun G c => G.add_to_group c.undoFn c.doFn c.ctype c.now)
          (UGroup.new t now)).undo_actions =
        (acts.map Commit.undoFn).reverse ∧
      (acts.foldl (fun G c => G.add_to_group c.undoFn c.doFn c.ctype c.now)
          (UGroup.new t now)).redo_actions = acts.map Commit.doFn) := by
  have hC := commit_action_push cfg now f g t s d hlock hog hnm
  have hfix : undoRedoCycle
      ((commit_action cfg now f g t false s d).2.1,
       (commit_action cfg now f g t false s d).2.2.1) =
      ((commit_action cfg now f g t false s d).2.1,
       (commit_action cfg now f g t false s d).2.2.1) := by
    rw [hC]
    refine undoRedoCycle_fixed _ _ (Entry.single ⟨g, f, t, now⟩) ?_ ?_ rfl huip ?_
    · exact add_to_stack_getLast? _ _ _
    · exact add_to_stack_length_le _ _ _
    · show f (g (f d)) = f d
      rw [hgf]
  refine ⟨by rw [hC], by rw [hC], fun n => Function.iterate_fixed hfix n, ?_, ?_⟩
  · intro n
    rw [Function.iterate_fixed hfix n, hC]
    rw [undo_pop _ _ (Entry.single ⟨g, f, t, now⟩) (add_to_stack_getLast? _ _ _)]
    show g (f d) = d
    exact hgf d
  · intro acts
    obtain ⟨h1, h2⟩ := groupFold_order acts (UGroup.new t now)
    constructor
    · rw [h1]
      simp [UGroup.new]
    · rw [h2]
      simp [UGroup.new]

theorem commit_round_trip_witness :
    ((initialState ℤ).lock_held = false ∧ (initialState ℤ).open_group = none ∧
     (initialState ℤ).undo_in_progress = false ∧
     (∀ prev ∈ (initialState ℤ).undo_stack.getLast?,
       ¬((0 : ℚ) - Entry.timestamp prev < cfgMerge.undo_merge_interval)) ∧
     (∀ x : ℤ, x + 1 - 1 = x) ∧ (∀ x : ℤ, x - 1 + 1 = x)) ∧
    ((commit_action cfgMerge 0 (fun x => x + 1) (fun x => x - 1) "inc" false
        (initialState ℤ) 0).1 = .ok true ∧
     (commit_action cfgMerge 0 (fun x => x + 1) (fun x => x - 1) "inc" false
        (initialState ℤ) 0).2.2.1 = (fun x : ℤ => x + 1) 0 ∧
     (∀ n : ℕ,
       undoRedoCycle^[n]
         ((commit_action cfgMerge 0 (fun x => x + 1) (fun x => x - 1) "inc"
             false (initialState ℤ) 0).2.1,
          (commit_action cfgMerge 0 (fun x => x + 1) (fun x => x - 1) "inc"
             false (initialState ℤ) 0).2.2.1) =
         ((commit_action cfgMerge 0 (fun x => x + 1) (fun x => x - 1) "inc"
             false (initialState ℤ) 0).2.1,
          (commit_action cfgMerge 0 (fun x => x + 1) (fun x => x - 1) "inc"
             false (initialState ℤ) 0).2.2.1)) ∧
     (∀ n : ℕ,
       (undo (undoRedoCycle^[n]
           ((commit_action cfgMerge 0 (fun x => x + 1) (fun x => x - 1) "inc"
              false (initialState ℤ) 0).2.1,
            (commit_action cfgMerge 0 (fun x => x + 1) (fun x => x - 1) "inc"
              false (initialState ℤ) 0).2.2.1)).1
         (undoRedoCycle^[n]
           ((commit_action cfgMerge 0 (fun x => x + 1) (fun x => x - 1) "inc"
              false (initialState ℤ) 0).2.1,
            (commit_action cfgMerge 0 (fun x => x + 1) (fun x => x - 1) "inc"
              false (initialState ℤ) 0).2.2.1)).2).2.1 = 0) ∧
     (∀ acts : List (Commit ℤ),
       (acts.foldl (fun G c => G.add_to_group c.undoFn c.doFn c.ctype c.now)
           (UGroup.new "inc" 0)).undo_actions =
         (acts.map Commit.undoFn).reverse ∧
       (acts.foldl (fun G c => G.add_to_group c.undoFn c.doFn c.ctype c.now)
           (UGroup.new "inc" 0)).redo_actions = acts.map Commit.doFn)) :=
  ⟨⟨rfl, rfl, rfl, by simp [initialState],
    fun x => by omega, fun x => by omega⟩,
   commit_round_trip cfgMerge 0 (fun x => x + 1) (fun x => x - 1) "inc"
     (initialState ℤ) 0 rfl rfl rfl (by simp [initialState])
     (fun x => by show x + 1 - 1 = x; omega)
     (fun x => by show x - 1 + 1 = x; omega)⟩

/-- C2: after `k > 50` non-merging commits from the fresh state, the undo
list holds exactly 50 entries — the newest 50 in commit order, the oldest
`k - 50` dropped from the front — and 50 consecutive `undo()` calls return
the document to its state after the first `k - 50` commits, provided each
commit's undo exactly inverts its action. -/
theorem bounded_history (cfg : AppConfigModel) (cs : List (Commit γ)) (d0 : γ)
    (hk : MAX_UNDO < cs.length) (hsp : NonMerging cfg cs)
    (hinv : ∀ c ∈ cs, ∀ x, c.undoFn (c.doFn x) = x) :
    undo_count (foldCommits cfg cs (initialState γ, d0)).1 = MAX_UNDO ∧
    (foldCommits cfg cs (initialState γ, d0)).1.undo_stack =
      (cs.map entryOf).drop (cs.length - MAX_UNDO) ∧
    (undoN MAX_UNDO (foldCommits cfg cs (initialState γ, d0))).2 =
      foldApply (cs.take (cs.length - MAX_UNDO)) d0 := by
  have hfold := foldCommits_spaced cfg cs d0 hsp
  have hmaplen : (cs.map entryOf).length = cs.length := by simp
  have htr : truncFront MAX_UNDO (cs.map entryOf) =
      (cs.map entryOf).drop (cs.length - MAX_UNDO) := by
    rw [truncFront_eq_drop, hmaplen]
  have hlen : ((cs.map entryOf).drop (cs.length - MAX_UNDO)).length =
      MAX_UNDO := by
    rw [List.length_drop, hmaplen]
    omega
  refine ⟨?_, ?_, ?_⟩
  · rw [hfold]
    show (truncFront MAX_UNDO (cs.map entryOf)).length = MAX_UNDO
    rw [htr, hlen]
  · rw [hfold]
    exact htr
  · rw [hfold]
    have hdoc := undoN_doc ((cs.map entryOf).drop (cs.length - MAX_UNDO))
      ({ initialState γ with
          undo_stack := (cs.map entryOf).drop (cs.length - MAX_UNDO) })
      (foldApply cs d0) rfl
    rw [hlen] at hdoc
    rw [htr, hdoc]
    have hD : (cs.map entryOf).drop (cs.length - MAX_UNDO) =
        (cs.drop (cs.length - MAX_UNDO)).map entryOf := (List.map_drop _ _ _).symm
    have hsplitcs :
        cs.take (cs.length - MAX_UNDO) ++ cs.drop (cs.length - MAX_UNDO) = cs :=
      List.take_append_drop _ _
    have hfa : foldApply cs d0 =
        foldApply (cs.drop (cs.length - MAX_UNDO))
          (foldApply (cs.take (cs.length - MAX_UNDO)) d0) := by
      conv_lhs => rw [← hsplitcs]
      rw [foldApply_append]
    rw [hD, hfa]
    exact applyRev_entryOf_cancels _
      (fun c hc => hinv c (List.drop_subset _ _ hc)) _

theorem bounded_history_witness :
    (MAX_UNDO < cs51.length ∧ NonMerging cfgSmallHistory cs51 ∧
      ∀ c ∈ cs51, ∀ x : ℤ, c.undoFn (c.doFn x) = x) ∧
    (undo_count (foldCommits cfgSmallHistory cs51 (initialState ℤ, 0)).1 =
       MAX_UNDO ∧
     (foldCommits cfgSmallHistory cs51 (initialState ℤ, 0)).1.undo_stack =
       (cs51.map entryOf).drop (cs51.length - MAX_UNDO) ∧
     (undoN MAX_UNDO (foldCommits cfgSmallHistory cs51 (initialState ℤ, 0))).2 =
       foldApply (cs51.take (cs51.length - MAX_UNDO)) 0) :=
  ⟨⟨by simp [cs51, MAX_UNDO],
    List.chain'_replicate_of_rel _ (by norm_num [cfgSmallHistory, incCommit]),
    fun c hc x => by
      rw [List.eq_of_mem_replicate hc]
      show x + 1 - 1 = x
      omega⟩,
   bounded_history cfgSmallHistory cs51 0 (by simp [cs51, MAX_UNDO])
     (List.chain'_replicate_of_rel _ (by norm_num [cfgSmallHistory, incCommit]))
     (fun c hc x => by
       rw [List.eq_of_mem_replicate hc]
       show x + 1 - 1 = x
       omega)⟩

/-- C3: two commits of the same type within the merge interval collapse
into a single `_UndoGroup` stack entry whose one `undo()` reverses both
actions; when the second commit falls outside the interval the two commits
stay two separate single entries. -/
theorem merge_window_collapse (cfg : AppConfigModel) (f1 g1 f2 g2 : γ → γ)
    (t : String) (now1 now2 now3 : ℚ) (d0 : γ)
    (hm : now2 - now1 < cfg.undo_merge_interval)
    (hs : ¬(now3 - now1 < cfg.undo_merge_interval))
    (hinv1 : ∀ x, g1 (f1 x) = x) (hinv2 : ∀ x, g2 (f2 x) = x) :
    (foldCommits cfg [⟨f1, g1, t, now1⟩, ⟨f2, g2, t, now2⟩]
        (initialState γ, d0)).1.undo_stack =
      [Entry.group (((UGroup.new t now2).add_to_group g1 f1 t
          now2).add_to_group g2 f2 t now2)] ∧
    undo_count (foldCommits cfg [⟨f1, g1, t, now1⟩, ⟨f2, g2, t, now2⟩]
        (initialState γ, d0)).1 = 1 ∧
    (undo (foldCommits cfg [⟨f1, g1, t, now1⟩, ⟨f2, g2, t, now2⟩]
          (initialState γ, d0)).1
        (foldCommits cfg [⟨f1, g1, t, now1⟩, ⟨f2, g2, t, now2⟩]
          (initialState γ, d0)).2).2.1 = d0 ∧
    (foldCommits cfg [⟨f1, g1, t, now1⟩, ⟨f2, g2, t, now3⟩]
        (initialState γ, d0)).1.undo_stack =
      [Entry.single ⟨g1, f1, t, now1⟩, Entry.single ⟨g2, f2, t, now3⟩] ∧
    undo_count (foldCommits cfg [⟨f1, g1, t, now1⟩, ⟨f2, g2, t, now3⟩]
        (initialState γ, d0)).1 = 2 := by
  have htr1 : truncFront MAX_UNDO
      ([(⟨f1, g1, t, now1⟩ : Commit γ)].map entryOf) =
      [entryOf ⟨f1, g1, t, now1⟩] := by
    rw [List.map_singleton, truncFront_of_length_le _ _ (by simp [MAX_UNDO])]
  have hmerge : foldCommits cfg [⟨f1, g1, t, now1⟩, ⟨f2, g2, t, now2⟩]
      (initialState γ, d0) =
      ({ initialState γ with
           undo_stack := [Entry.group (((UGroup.new t now2).add_to_group g1 f1 t
             now2).add_to_group g2 f2 t now2)] },
       f2 (f1 d0)) := by
    have hsplit : ([⟨f1, g1, t, now1⟩, ⟨f2, g2, t, now2⟩] :
        List (Commit γ)) = [⟨f1, g1, t, now1⟩] ++ [⟨f2, g2, t, now2⟩] := rfl
    rw [hsplit, foldCommits_append,
      foldCommits_spaced cfg _ d0 (List.chain'_singleton _), htr1]
    have hstep : foldCommits cfg [⟨f2, g2, t, now2⟩]
        (({ initialState γ with
             undo_stack := [entryOf ⟨f1, g1, t, now1⟩] } : UndoStackState γ),
         foldApply [⟨f1, g1, t, now1⟩] d0) =
        commitStep cfg ⟨f2, g2, t, now2⟩
          ({ initialState γ with
              undo_stack := [entryOf ⟨f1, g1, t, now1⟩] },
           foldApply [⟨f1, g1, t, now1⟩] d0) := by
      simp [foldCommits]
    rw [hstep]
    simp only [commitStep]
    rw [commit_action_merge_single cfg now2 f2 g2 t
      ({ initialState γ with
          undo_stack := [entryOf (⟨f1, g1, t, now1⟩ : Commit γ)] })
      (foldApply [⟨f1, g1, t, now1⟩] d0) ⟨g1, f1, t, now1⟩ rfl rfl rfl hm]
    rfl
  refine ⟨by rw [hmerge], by rw [hmerge]; rfl, ?_, ?_, ?_⟩
  · rw [hmerge]
    rw [undo_pop ({ initialState γ with
        undo_stack := [Entry.group (((UGroup.new t now2).add_to_group g1 f1 t
          now2).add_to_group g2 f2 t now2)] }) (f2 (f1 d0))
      (Entry.group (((UGroup.new t now2).add_to_group g1 f1 t
        now2).add_to_group g2 f2 t now2)) rfl]
    show (Entry.group (((UGroup.new t now2).add_to_group g1 f1 t
      now2).add_to_group g2 f2 t now2)).undoApply (f2 (f1 d0)) = d0
    simp only [Entry.undoApply, UGroup.undoApply, UGroup.add_to_group,
      UGroup.new, List.foldl]
    rw [hinv2, hinv1]
  · rw [foldCommits_spaced cfg _ d0 ?hch]
    case hch =>
      rw [NonMerging, List.chain'_cons]
      exact ⟨not_lt.mp hs, List.chain'_singleton _⟩
    show truncFront MAX_UNDO _ = _
    rw [truncFront_of_length_le _ _ (by simp [MAX_UNDO])]
    rfl
  · rw [foldCommits_spaced cfg _ d0 ?hch2]
    case hch2 =>
      rw [NonMerging, List.chain'_cons]
      exact ⟨not_lt.mp hs, List.chain'_singleton _⟩
    show (truncFront MAX_UNDO _).length = 2
    rw [truncFront_of_length_le _ _ (by simp [MAX_UNDO])]
    rfl

theorem merge_window_collapse_witness :
    ((1 : ℚ) - 0 < cfgMerge.undo_merge_interval ∧
     ¬((20 : ℚ) - 0 < cfgMerge.undo_merge_interval) ∧
     (∀ x : ℤ, x + 1 - 1 = x) ∧ (∀ x : ℤ, x + 2 - 2 = x)) ∧
    ((foldCommits cfgMerge
        [⟨fun x => x + 1, fun x => x - 1, "inc", 0⟩,
         ⟨fun x => x + 2, fun x => x - 2, "inc", 1⟩]
        (initialState ℤ, 0)).1.undo_stack =
       [Entry.group (((UGroup.new "inc" 1).add_to_group (fun x => x - 1)
           (fun x => x + 1) "inc" 1).add_to_group (fun x => x - 2)
           (fun x => x + 2) "inc" 1)] ∧
     undo_count (foldCommits cfgMerge
        [⟨fun x => x + 1, fun x => x - 1, "inc", 0⟩,
         ⟨fun x => x + 2, fun x => x - 2, "inc", 1⟩]
        (initialState ℤ, 0)).1 = 1 ∧
     (undo (foldCommits cfgMerge
          [⟨fun x => x + 1, fun x => x - 1, "inc", 0⟩,
           ⟨fun x => x + 2, fun x => x - 2, "inc", 1⟩]
          (initialState ℤ, 0)).1
        (foldCommits cfgMerge
          [⟨fun x => x + 1, fun x => x - 1, "inc", 0⟩,
           ⟨fun x => x + 2, fun x => x - 2, "inc", 1⟩]
          (initialState ℤ, 0)).2).2.1 = 0 ∧
     (foldCommits cfgMerge
        [⟨fun x => x + 1, fun x => x - 1, "inc", 0⟩,
         ⟨fun x => x + 2, fun x => x - 2, "inc", 20⟩]
        (initialState ℤ, 0)).1.undo_stack =
       [Entry.single ⟨fun x => x - 1, fun x => x + 1, "inc", 0⟩,
        Entry.single ⟨fun x => x - 2, fun x => x + 2, "inc", 20⟩] ∧
     undo_count (foldCommits cfgMerge
        [⟨fun x => x + 1, fun x => x - 1, "inc", 0⟩,
         ⟨fun x => x + 2, fun x => x - 2, "inc", 20⟩]
        (initialState ℤ, 0)).1 = 2) :=
  ⟨⟨by norm_num [cfgMerge], by norm_num [cfgMerge],
    fun x => by omega, fun x => by omega⟩,
   merge_window_collapse cfgMerge (fun x => x + 1) (fun x => x - 1)
     (fun x => x + 2) (fun x => x - 2) "inc" 0 1 20 0
     (by norm_num [cfgMerge]) (by norm_num [cfgMerge])
     (fun x => by show x + 1 - 1 = x; omega)
     (fun x => by show x + 2 - 2 = x; omega)⟩

/-- C9 (counterexample): with the configured max-history-size set to 1,
two non-merging commits still leave two entries on the undo list — the
bound the code enforces is the fixed constant `MAX_UNDO = 50`, so changing
the configured max-history-size does not change the bound. -/
theorem max_history_config_ignored :
    cfgSmallHistory.max_history_size = 1 ∧
    undo_count
      (foldCommits cfgSmallHistory [incCommit 0, incCommit 1]
        (initialState ℤ, 0)).1 = 2 := by
  refine ⟨rfl, ?_⟩
  have hsp : NonMerging cfgSmallHistory [incCommit 0, incCommit 1] := by
    rw [NonMerging, List.chain'_cons]
    refine ⟨?_, List.chain'_singleton _⟩
    show cfgSmallHistory.undo_merge_interval ≤ (incCommit 1).now - (incCommit 0).now
    norm_num [cfgSmallHistory, incCommit]
  rw [foldCommits_spaced cfgSmallHistory _ 0 hsp]
  show (truncFront MAX_UNDO ([incCommit 0, incCommit 1].map entryOf)).length = 2
  rw [truncFront_length]
  simp [MAX_UNDO]

/-- C9 (amended): the commit path reads the undo-merge interval from the
configuration value in force at the moment it runs — its behaviour depends
on the configuration only through `undo_merge_interval`, and two commits
collapse exactly when their spacing is below that interval — while the
maximum undo history size is the fixed constant `MAX_UNDO = 50`,
independent of any configured max-history-size. -/
theorem undo_config_usage (cfg cfg' : AppConfigModel)
    (hi : cfg.undo_merge_interval = cfg'.undo_merge_interval) :
    (∀ (now : ℚ) (f g : γ → γ) (t : String) (sk : Bool)
       (s : UndoStackState γ) (d : γ),
       commit_action cfg now f g t sk s d = commit_action cfg' now f g t sk s d) ∧
    (∀ (c1 c2 : Commit γ) (d0 : γ),
       undo_count (foldCommits cfg [c1, c2] (initialState γ, d0)).1 =
         (if c2.now - c1.now < cfg.undo_merge_interval then 1 else 2)) ∧
    (∀ (l : List (Entry γ)) (e : Entry γ) (mk : Nat → SignalEvent),
       (add_to_stack e l mk).1.length = min MAX_UNDO (l.length + 1)) ∧
    MAX_UNDO = 50 := by
  refine ⟨?_, ?_, ?_, rfl⟩
  · intro now f g t sk s d
    unfold commit_action
    rw [hi]
  · intro c1 c2 d0
    have hsplit : ([c1, c2] : List (Commit γ)) = [c1] ++ [c2] := rfl
    rw [hsplit, foldCommits_append,
      foldCommits_spaced cfg [c1] d0 (List.chain'_singleton _)]
    have htr : truncFront MAX_UNDO ([c1].map entryOf) = [entryOf c1] := by
      rw [List.map_singleton, truncFront_of_length_le]
      simp [MAX_UNDO]
    rw [htr]
    have hstep : foldCommits cfg [c2]
        (({ initialState γ with undo_stack := [entryOf c1] } :
           UndoStackState γ), foldApply [c1] d0) =
        commitStep cfg c2
          ({ initialState γ with undo_stack := [entryOf c1] },
           foldApply [c1] d0) := by
      simp [foldCommits]
    rw [hstep, commitStep]
    by_cases hm : c2.now - c1.now < cfg.undo_merge_interval
    · rw [if_pos hm]
      have hl : (({ initialState γ with undo_stack := [entryOf c1] } :
          UndoStackState γ)).undo_stack.getLast? =
          some (Entry.single ⟨c1.undoFn, c1.doFn, c1.ctype, c1.now⟩) := rfl
      rw [commit_action_merge_single cfg c2.now c2.doFn c2.undoFn c2.ctype
        _ _ _ rfl rfl hl hm]
      show ((add_to_stack _ ([entryOf c1].dropLast) SignalEvent.undoCountChanged).1).length = 1
      rw [List.dropLast_single, add_to_stack_of_lt _ _ _ (by simp [MAX_UNDO])]
      simp
    · rw [if_neg hm]
      have hnm : ∀ prev ∈ (({ initialState γ with undo_stack := [entryOf c1] } :
          UndoStackState γ)).undo_stack.getLast?,
          ¬(c2.now - Entry.timestamp prev < cfg.undo_merge_interval) := by
        intro prev hp
        have hp' : entryOf c1 = prev := by simpa using hp
        rw [← hp', entryOf]
        simpa [Entry.timestamp] using hm
      rw [commit_action_push cfg c2.now c2.doFn c2.undoFn c2.ctype _ _ rfl rfl hnm]
      show ((add_to_stack _ [entryOf c1] SignalEvent.undoCountChanged).1).length = 2
      rw [add_to_stack_of_lt _ _ _ (by simp [MAX_UNDO])]
      simp
  · intro l e mk
    rw [add_to_stack_fst, truncFront_length]
    simp

theorem undo_config_usage_witness :
    (cfgSmallHistory.undo_merge_interval =
      ({ undo_merge_interval := 0, max_history_size := 99 } :
        AppConfigModel).undo_merge_interval) ∧
    ((∀ (now : ℚ) (f g : ℤ → ℤ) (t : String) (sk : Bool)
        (s : UndoStackState ℤ) (d : ℤ),
        commit_action cfgSmallHistory now f g t sk s d =
          commit_action
            ({ undo_merge_interval := 0, max_history_size := 99 } :
              AppConfigModel) now f g t sk s d) ∧
     (∀ (c1 c2 : Commit ℤ) (d0 : ℤ),
        undo_count (foldCommits cfgSmallHistory [c1, c2] (initialState ℤ, d0)).1 =
          (if c2.now - c1.now < cfgSmallHistory.undo_merge_interval then 1
           else 2)) ∧
     (∀ (l : List (Entry ℤ)) (e : Entry ℤ) (mk : Nat → SignalEvent),
        (add_to_stack e l mk).1.length = min MAX_UNDO (l.length + 1)) ∧
     MAX_UNDO = 50) :=
  ⟨rfl, undo_config_usage cfgSmallHistory
    { undo_merge_interval := 0, max_history_size := 99 } rfl⟩

end IntraPaint
